import Mathlib

/-!
Verification development for the debridge-data-pipeline repository.

Shallow embedding of the pure cores of:
- `src/utils/retry.ts` (classified exponential-backoff retry),
- `src/blockchain/events.ts` (fetch/merge/decode/enrich pipeline),
- `src/database/queries.ts` (resume cursor and metric aggregation queries),
- `src/temporal/activities/index.ts` (starting-block resolution),
- `src/temporal/workflows/collectEvents.ts` (the collection loop).

Network, database and orchestration effects are abstracted as explicit
inputs (oracles for fetched data, persisted rows, random jitter, and the
stop-signal schedule); machine numbers (JS `number` used as integers,
`bigint`) are modelled as `Nat`/`Int`, and JS float fractions from
`Math.random()` as rationals.
-/

namespace Debridge

/-! ## String helpers

JS `String.prototype.includes` on the lowercased message/error strings,
used by the retry classifier. Implemented directly on character lists. -/

/-- `startsWithChars s t` is true when `t` is a leading segment of `s`. -/
def startsWithChars : List Char → List Char → Bool
  | _, [] => true
  | [], _ :: _ => false
  | a :: s, b :: t => a == b && startsWithChars s t

/-- `hasSubChars s t` is true when `t` occurs contiguously inside `s`. -/
def hasSubChars : List Char → List Char → Bool
  | [], t => t.isEmpty
  | s@(_ :: s'), t => startsWithChars s t || hasSubChars s' t

/-- Models JS `s.includes(t)`. -/
def strIncludes (s t : String) : Bool :=
  hasSubChars s.toList t.toList

/-- Models JS `s.toLowerCase()` (ASCII is all the classifier compares);
built through the character list so it evaluates by kernel reduction. -/
def strLower (s : String) : String :=
  ⟨s.toList.map Char.toLower⟩

/-! ## Retry engine — `src/utils/retry.ts` -/

/-- From `calculateDelay` (retry.ts lines 19-24):
exponential delay `initialDelayMs * 2^attempt`, capped at `maxDelayMs`,
scaled by `Math.random()` (full jitter), the random draw `rand ∈ [0,1)`
passed in explicitly. -/
def calculateDelay (attempt initialDelayMs maxDelayMs : Nat) (rand : ℚ) : ℚ :=
  rand * (min (initialDelayMs * 2 ^ attempt) maxDelayMs : Nat)

/-- From `isRetryableError` (retry.ts lines 27-60), for the
`error instanceof Error` case. The code reads two strings derived from
the error: `error.message.toLowerCase()` and
`JSON.stringify(error).toLowerCase()`; the error is modelled as that pair
(pre-lowercasing), and the checks run in source order. -/
def isRetryableError (message errorString : String) : Bool :=
  if strIncludes (strLower message) "rate limit" || strIncludes (strLower message) "429" then
    true
  else if strIncludes (strLower message) "econnreset" ||
      strIncludes (strLower message) "etimedout" ||
      strIncludes (strLower message) "enotfound" ||
      strIncludes (strLower message) "network" then
    true
  else if strIncludes (strLower message) "500" || strIncludes (strLower message) "502" ||
      strIncludes (strLower message) "503" || strIncludes (strLower message) "504" then
    true
  else if strIncludes (strLower errorString) "10000 results" ||
      strIncludes (strLower errorString) "-32005" then
    false
  else if strIncludes (strLower errorString) "block range" ||
      strIncludes (strLower errorString) "-32600" then
    false
  else
    false

/-- The indicator substrings the classifier treats as retryable
(rate limit / HTTP 429; the ECONNRESET, ETIMEDOUT, ENOTFOUND network
error codes and "network"; the 5xx status codes it matches). -/
def retryableTokens : List String :=
  ["rate limit", "429", "econnreset", "etimedout", "enotfound", "network",
   "500", "502", "503", "504"]

/-- The indicator substrings of a range or result-count limit rejection
(Infura result cap, Alchemy block-range cap and their JSON-RPC codes). -/
def rangeLimitTokens : List String :=
  ["10000 results", "-32005", "block range", "-32600"]

/-- Retry policy after merging with `DEFAULT_OPTIONS` (retry.ts lines 6-17, 71-72):
`retryableErrors` is the classifier actually used (the caller's, or the
default `isRetryableError`). -/
structure RetryOptions (E : Type) where
  maxRetries : Nat
  initialDelayMs : Nat
  maxDelayMs : Nat
  retryableErrors : E → Bool

/-- Observable outcome of one `withRetry` call: the value or final error,
how many times the operation was invoked, and the sleeps performed. -/
structure RetryTrace (E A : Type) where
  result : Except E A
  calls : Nat
  sleeps : List ℚ
  deriving Repr

/-- The `for (attempt = 0; attempt <= maxRetries; attempt++)` loop of
`withRetry` (retry.ts lines 76-114). `fn n` is the (deterministic) outcome
of the n-th invocation of the operation, `rand n` the jitter draw used if
attempt n fails retryably. `remaining = maxRetries - attempt`, so
`remaining = 0` is exactly the `attempt === opts.maxRetries` last-attempt
check. -/
def withRetryGo {E A : Type} (fn : Nat → Except E A) (isRetryable : E → Bool)
    (initialDelayMs maxDelayMs : Nat) (rand : Nat → ℚ) :
    Nat → Nat → RetryTrace E A
  | attempt, remaining =>
    match fn attempt with
    | .ok a => ⟨.ok a, 1, []⟩
    | .error e =>
      match remaining with
      | 0 => ⟨.error e, 1, []⟩
      | remaining' + 1 =>
        if isRetryable e then
          let d := calculateDelay attempt initialDelayMs maxDelayMs (rand attempt)
          let t := withRetryGo fn isRetryable initialDelayMs maxDelayMs rand
            (attempt + 1) remaining'
          ⟨t.result, t.calls + 1, d :: t.sleeps⟩
        else
          ⟨.error e, 1, []⟩

/-- From `withRetry` (retry.ts lines 67-117). -/
def withRetry {E A : Type} (fn : Nat → Except E A) (opts : RetryOptions E)
    (rand : Nat → ℚ) : RetryTrace E A :=
  withRetryGo fn opts.retryableErrors opts.initialDelayMs opts.maxDelayMs rand 0 opts.maxRetries

/-! ## Event fetch & enrichment — `src/blockchain/events.ts` -/

/-- A raw `viem` log as the pipeline reads it: identity fields, the block
it sits in, its topic list (event signature plus indexed args, as hex
strings) and the non-indexed data payload (the uint256 transfer value). -/
structure RawLog where
  transactionHash : String
  logIndex : Nat
  blockNumber : Nat
  topics : List String
  data : Nat
  deriving Repr, DecidableEq

/-- keccak256 of `Transfer(address,address,uint256)` (events.ts line 16),
taken as an opaque hex constant. -/
def TRANSFER_TOPIC : String :=
  "0xddf252ad1be2c89b69c2b068fc378daa952ba7f163c4a11628f55a4df523b3ef"

/-- The dedup key `` `${log.transactionHash}-${log.logIndex}` `` built at
events.ts line 83, modelled as the pair (transaction hashes are `0x` hex
and contain no `-`, so the string key and the pair are in bijection). -/
def logKey (log : RawLog) : String × Nat :=
  (log.transactionHash, log.logIndex)

/-- One `logsMap.set(key, log)` step on a JS `Map` represented as an
insertion-ordered association list: an existing key keeps its position
and gets the new value, a new key is appended. -/
def mapSet (m : List ((String × Nat) × RawLog)) (k : String × Nat) (v : RawLog) :
    List ((String × Nat) × RawLog) :=
  if m.any (fun p => decide (p.1 = k)) then
    m.map (fun p => if p.1 = k then (k, v) else p)
  else
    m ++ [(k, v)]

/-- The merge step of `fetchTransferEvents` (events.ts lines 80-92): the
sender-side and recipient-side query results are concatenated, written
into a `Map` keyed by (transactionHash, logIndex), and the map's values
(in insertion order) are returned. The two RPC reads are abstracted as
the two input lists. -/
def fetchTransferEvents (logsFrom logsTo : List RawLog) : List RawLog :=
  ((logsFrom ++ logsTo).foldl (fun m log => mapSet m (logKey log) log) []).map (·.2)

/-- Decoded transfer event (events.ts lines 18-26). `from`/`to` are Lean
keywords, hence `fromAddr`/`toAddr`. -/
structure TransferEvent where
  transactionHash : String
  logIndex : Nat
  blockNumber : Nat
  blockTimestamp : Nat
  fromAddr : String
  toAddr : String
  value : Nat
  deriving Repr, DecidableEq

/-- Enriched event (events.ts lines 28-32). -/
structure TransferEventWithGas extends TransferEvent where
  gasUsed : Nat
  effectiveGasPrice : Nat
  gasCost : Nat
  deriving Repr, DecidableEq

/-- From `decodeTransferEvent` (events.ts lines 100-116): `decodeEventLog`
succeeds exactly when the log carries the Transfer signature topic plus
the two indexed address topics, and throws (here: `.error`) otherwise. -/
def decodeTransferEvent (log : RawLog) (blockTimestamp : Nat) :
    Except String TransferEvent :=
  match log.topics with
  | [t0, topicFrom, topicTo] =>
    if t0 = TRANSFER_TOPIC then
      .ok { transactionHash := log.transactionHash
            logIndex := log.logIndex
            blockNumber := log.blockNumber
            blockTimestamp := blockTimestamp
            fromAddr := topicFrom
            toAddr := topicTo
            value := log.data }
    else
      .error "decode: unexpected event signature"
  | _ => .error "decode: unexpected log shape"

/-- A transaction receipt restricted to the fields the pipeline reads. -/
structure Receipt where
  gasUsed : Nat
  effectiveGasPrice : Nat
  deriving Repr, DecidableEq

/-- From `enrichWithGasData` (events.ts lines 121-143), with the
receipt lookup abstracted as a total oracle from transaction hash to
receipt: `gasCost = gasUsed * effectiveGasPrice`. -/
def enrichWithGasData (receipts : String → Receipt) (event : TransferEvent) :
    TransferEventWithGas :=
  { event with
    gasUsed := (receipts event.transactionHash).gasUsed
    effectiveGasPrice := (receipts event.transactionHash).effectiveGasPrice
    gasCost := (receipts event.transactionHash).gasUsed *
      (receipts event.transactionHash).effectiveGasPrice }

/-- The timestamp lookup `blockTimestamps.get(log.blockNumber!) || 0`
(events.ts line 162): a missing key — and, through JS falsiness, a stored
0 — both yield 0. The `Map` is modelled as an association list. -/
def lookupTimestamp (blockTimestamps : List (Nat × Nat)) (blockNumber : Nat) : Nat :=
  match blockTimestamps.find? (fun p => decide (p.1 = blockNumber)) with
  | some p => p.2
  | none => 0

/-- Decode-then-enrich for one log, exactly the body of the
`batch.map` closure in `processEventsBatch` (events.ts lines 161-165). -/
def processOneLog (receipts : String → Receipt) (blockTimestamps : List (Nat × Nat))
    (log : RawLog) : Except String TransferEventWithGas :=
  (decodeTransferEvent log (lookupTimestamp blockTimestamps log.blockNumber)).map
    (enrichWithGasData receipts)

/-- The `for (let i = 0; i < logs.length; i += batchSize)` chunking of
`processEventsBatch` (events.ts lines 157-174) with `batchSize = 50`;
a rejected promise in a chunk rejects the whole call. `fuel` bounds the
chunk count (the caller passes `logs.length`, which is enough since every
round consumes a nonempty chunk); on exhausted fuel the remainder is
processed in one chunk, which returns the same value. -/
def processChunks (f : RawLog → Except String TransferEventWithGas) :
    Nat → List RawLog → Except String (List TransferEventWithGas)
  | 0, logs => logs.mapM f
  | _ + 1, [] => .ok []
  | fuel + 1, logs@(_ :: _) => do
    let batch ← (logs.take 50).mapM f
    let rest ← processChunks f fuel (logs.drop 50)
    return batch ++ rest

/-- From `processEventsBatch` (events.ts lines 148-177). -/
def processEventsBatch (receipts : String → Receipt) (logs : List RawLog)
    (blockTimestamps : List (Nat × Nat)) : Except String (List TransferEventWithGas) :=
  processChunks (processOneLog receipts blockTimestamps) logs.length logs

/-! ## Storage queries — `src/database/queries.ts` -/

/-- ClickHouse `max(block_number)` over the `transfer_events` table: over
`UInt64` it returns 0 on an empty table. The persisted rows are
abstracted as their list of block numbers. -/
def maxPersistedBlock (blocks : List Nat) : Nat :=
  blocks.foldr max 0

/-- From `getLastProcessedBlock` (queries.ts lines 216-231): the query
result is `null`-ed both when absent and when it is the string `'0'`
(the value ClickHouse reports for an empty table). -/
def getLastProcessedBlock (blocks : List Nat) : Option Nat :=
  if maxPersistedBlock blocks = 0 then none else some (maxPersistedBlock blocks)

/-- A stored event restricted to what the gas-price aggregation reads:
its `event_date` (UTC day, as a day number) and `effective_gas_price`. -/
structure StoredGasRow where
  eventDate : Nat
  effectiveGasPrice : Nat
  deriving Repr, DecidableEq

/-- Insert into an ascending list, keeping it sorted. -/
def insertAsc (x : Nat) : List Nat → List Nat
  | [] => [x]
  | y :: l => if x ≤ y then x :: y :: l else y :: insertAsc x l

/-- Sort ascending (models the `ORDER BY event_date` of the queries). -/
def sortAsc (l : List Nat) : List Nat :=
  l.foldr insertAsc []

/-- The distinct event dates in ascending order (`GROUP BY event_date
ORDER BY event_date`). -/
def distinctDates (rows : List StoredGasRow) : List Nat :=
  sortAsc ((rows.map (·.eventDate)).dedup)

/-- Arithmetic mean of a list of rationals (SQL `avg`; ClickHouse
computes it in floating point, modelled exactly over ℚ). -/
def qavg (xs : List ℚ) : ℚ :=
  xs.sum / xs.length

/-- One row of the `daily_avg` CTE of `getMA7EffectiveGasPrice`
(queries.ts lines 158-165): a date and the mean effective gas price over
that date's events. -/
def dailyAvgRows (rows : List StoredGasRow) : List (Nat × ℚ) :=
  (distinctDates rows).map fun d =>
    (d, qavg (((rows.filter (fun r => decide (r.eventDate = d))).map
      (fun r => (r.effectiveGasPrice : ℚ)))))

/-- The window frame `ROWS BETWEEN 6 PRECEDING AND CURRENT ROW` at row
index `i` of the date-ordered `daily_avg` rows. -/
def windowFrame (rows : List (Nat × ℚ)) (i : Nat) : List (Nat × ℚ) :=
  (rows.take (i + 1)).drop (i + 1 - 7)

/-- From the `getMA7EffectiveGasPrice` query (queries.ts lines 156-175):
for each `daily_avg` row, `avgIf(avg_gas_price, event_date >=
subtractDays(da.event_date, 6)) OVER (ROWS BETWEEN 6 PRECEDING AND
CURRENT ROW)`. Inside the window aggregate both `event_date` and
`da.event_date` resolve to the frame row's own column, so the `avgIf`
condition is evaluated per frame row as `r.date >= r.date - 6`; it is
kept here exactly as the query states it. -/
def getMA7EffectiveGasPrice (rows : List StoredGasRow) : List (Nat × ℚ) :=
  let daily := dailyAvgRows rows
  (List.range daily.length).map fun i =>
    ((daily.getD i (0, 0)).1,
      qavg (((windowFrame daily i).filter (fun r => decide (r.1 - 6 ≤ r.1))).map (·.2)))

/-- Modelled from the spec: the trailing-window average over the current
day and the 6 preceding calendar days — each date's value is the mean of
the per-day mean gas prices of the stored days falling in
`[d - 6, d]` (all stored days when fewer than 7 days of history exist).
Stated from the spec's words for comparison with
`getMA7EffectiveGasPrice` above. -/
def specCalendarMA7 (rows : List StoredGasRow) : List (Nat × ℚ) :=
  let daily := dailyAvgRows rows
  daily.map fun row =>
    (row.1, qavg (((daily.filter (fun r => row.1 - 6 ≤ r.1 && r.1 ≤ row.1)).map (·.2))))

/-- The clean reading of the window computed by the query: the mean over
the current row and up to 6 preceding rows of the per-day series. -/
def rowWindowMA7 (rows : List StoredGasRow) : List (Nat × ℚ) :=
  let daily := dailyAvgRows rows
  (List.range daily.length).map fun i =>
    ((daily.getD i (0, 0)).1, qavg ((windowFrame daily i).map (·.2)))

/-! ## Activities — `src/temporal/activities/index.ts` -/

/-- `24 * 60 * 60 / 12` (activities line 48): ~7200 blocks per day at a
12-second block time. -/
def blocksPerDay : Nat := 24 * 60 * 60 / 12

/-- From `getStartingBlock` (activities lines 36-53): resume at the last
persisted block + 1 when the store reports one, otherwise 30 days of
blocks behind the current head. The subtraction is JS `bigint`
arithmetic, hence the `Int` result. -/
def getStartingBlock (persistedBlocks : List Nat) (currentBlock : Int) : Int :=
  match getLastProcessedBlock persistedBlocks with
  | some lastBlock => (lastBlock : Int) + 1
  | none => currentBlock - (blocksPerDay * 30 : Nat)

/-! ## Collection loop — `src/temporal/workflows/collectEvents.ts` -/

/-- The workflow's progress record (collectEvents.ts lines 34-40);
`currentBlock` is the decimal string of the last batch's end block,
modelled as the number itself. -/
structure CollectionProgress where
  eventsCollected : Nat
  blocksProcessed : Nat
  currentBlock : Nat
  targetEvents : Nat
  isComplete : Bool
  deriving Repr, DecidableEq

/-- Observable outcome of one workflow run: the returned progress, the
loop cursor `currentBlockNum` after exit, the inclusive block ranges
passed to `fetchAndStoreEvents` in order, and whether the run ended in
`continueAsNew` instead of returning. -/
structure WorkflowRun where
  progress : CollectionProgress
  cursor : Nat
  batches : List (Nat × Nat)
  continued : Bool
  deriving Repr, DecidableEq

/-- Loop exit (collectEvents.ts lines 120-122): `isComplete` is set from
`eventsCollected >= targetEvents || currentBlockNum >= networkBlockNum`
and the progress snapshot is returned. -/
def loopExit (targetEvents networkBlock cursor : Nat) (p : CollectionProgress) :
    WorkflowRun :=
  { progress := { p with
      isComplete := decide (targetEvents ≤ p.eventsCollected) || decide (networkBlock ≤ cursor) }
    cursor := cursor
    batches := []
    continued := false }

/-- The `while` loop of `collectEventsWorkflow` (collectEvents.ts lines
87-118). `fetch from to` is the event count `fetchAndStoreEvents`
returns for the inclusive range `[from, to]`; `stop i` says whether the
`stopCollection` signal has been observed when the guard of iteration
`i` is evaluated. `fuel` bounds the iteration count; the caller passes
`networkBlock - cb`, which suffices because the cursor strictly
increases, and on exhausted fuel the guard's `cb < networkBlock` is
already false so the loop exits exactly as the source does. -/
def collectLoop (fetch : Nat → Nat → Nat) (stop : Nat → Bool)
    (targetEvents blockBatchSize networkBlock : Nat) :
    Nat → Nat → Nat → CollectionProgress → WorkflowRun
  | 0, _, cb, p => loopExit targetEvents networkBlock cb p
  | fuel + 1, i, cb, p =>
    if p.eventsCollected < targetEvents && cb < networkBlock && !stop i then
      -- batchEndNum = currentBlockNum + blockBatchSize, capped at the head
      let endBlock := min (cb + blockBatchSize) networkBlock
      let eventsFound := fetch cb endBlock
      let p' := { p with
        eventsCollected := p.eventsCollected + eventsFound
        blocksProcessed := p.blocksProcessed + (endBlock - cb + 1)
        currentBlock := endBlock }
      if p'.blocksProcessed > 500000 then
        -- continueAsNew: the workflow restarts and never reaches line 120
        { progress := p', cursor := endBlock + 1, batches := [(cb, endBlock)], continued := true }
      else
        let r := collectLoop fetch stop targetEvents blockBatchSize networkBlock
          fuel (i + 1) (endBlock + 1) p'
        { r with batches := (cb, endBlock) :: r.batches }
    else
      loopExit targetEvents networkBlock cb p

/-- From `collectEventsWorkflow` (collectEvents.ts lines 52-123): the
progress starts from the persisted event count (`getCollectedEventCount`,
abstracted as `initialCount`) and the resolved starting block, and the
loop runs to the head `networkBlock` resolved once at start. -/
def collectEventsWorkflow (fetch : Nat → Nat → Nat) (stop : Nat → Bool)
    (targetEvents blockBatchSize startBlock networkBlock initialCount : Nat) :
    WorkflowRun :=
  collectLoop fetch stop targetEvents blockBatchSize networkBlock
    (networkBlock - startBlock) 0 startBlock
    { eventsCollected := initialCount
      blocksProcessed := 0
      currentBlock := startBlock
      targetEvents := targetEvents
      isComplete := false }

/-- Spec-side predicate: a batch list starts at `start` and each batch
begins one block after the previous batch's upper bound (the loop's
`currentBlockNum = endBlockNum + 1n` advancement). -/
def batchesChainB : Nat → List (Nat × Nat) → Bool
  | _, [] => true
  | start, b :: rest => b.1 == start && batchesChainB (b.2 + 1) rest

/-! ## Theorems -/

/-- C6: for every retry policy and every attempt number, the computed
full-jitter backoff delay lies in `[0, min(initialDelay * 2^attempt,
maxDelay)]` — the jitter draw is a uniform fraction in `[0, 1)` of the
capped exponential delay, so the delay can be arbitrarily close to 0 and
never exceeds the cap. -/
theorem calculateDelay_full_jitter_bounds (attempt initialDelayMs maxDelayMs : Nat)
    (rand : ℚ) (h0 : 0 ≤ rand) (h1 : rand < 1) :
    0 ≤ calculateDelay attempt initialDelayMs maxDelayMs rand ∧
    calculateDelay attempt initialDelayMs maxDelayMs rand ≤
      ((min (initialDelayMs * 2 ^ attempt) maxDelayMs : Nat) : ℚ) := by
  unfold calculateDelay
  constructor
  · exact mul_nonneg h0 (Nat.cast_nonneg _)
  · calc rand * ((min (initialDelayMs * 2 ^ attempt) maxDelayMs : Nat) : ℚ)
        ≤ 1 * ((min (initialDelayMs * 2 ^ attempt) maxDelayMs : Nat) : ℚ) :=
          mul_le_mul_of_nonneg_right h1.le (Nat.cast_nonneg _)
      _ = ((min (initialDelayMs * 2 ^ attempt) maxDelayMs : Nat) : ℚ) := one_mul _

/-- Witness for C6 at the spec's policy {initialDelay = 1000ms,
maxDelay = 30000ms}, attempt 3, jitter draw 1/2. -/
theorem calculateDelay_full_jitter_bounds_witness :
    (0 : ℚ) ≤ 1 / 2 ∧ (1 / 2 : ℚ) < 1 ∧
    0 ≤ calculateDelay 3 1000 30000 (1 / 2) ∧
    calculateDelay 3 1000 30000 (1 / 2) ≤ ((min (1000 * 2 ^ 3) 30000 : Nat) : ℚ) :=
  ⟨by norm_num, by norm_num,
   (calculateDelay_full_jitter_bounds 3 1000 30000 (1 / 2) (by norm_num) (by norm_num)).1,
   (calculateDelay_full_jitter_bounds 3 1000 30000 (1 / 2) (by norm_num) (by norm_num)).2⟩

/-- C4: when the first invocation fails with an error the policy's
classifier deems non-retryable, `withRetry` invokes the operation exactly
once, performs no sleep, and propagates that error unchanged. -/
theorem withRetry_nonretryable_single_call {E A : Type} (fn : Nat → Except E A)
    (opts : RetryOptions E) (rand : Nat → ℚ) (e : E)
    (hfail : fn 0 = .error e) (hnr : opts.retryableErrors e = false) :
    withRetry fn opts rand = ⟨.error e, 1, []⟩ := by
  unfold withRetry
  rcases h : opts.maxRetries with _ | n <;> simp [withRetryGo, hfail, hnr]

/-- Witness for C4: a range-too-large error (Infura's result cap) under
the default classifier is classified non-retryable, and `withRetry`
calls the operation once, sleeps never, and returns that error. -/
theorem withRetry_nonretryable_single_call_witness :
    (fun e : String × String => isRetryableError e.1 e.2)
        ("query returned more than 10000 results", "code -32005") = false ∧
    withRetry (A := Nat)
        (fun _ => .error ("query returned more than 10000 results", "code -32005"))
        ⟨5, 1000, 30000, fun e => isRetryableError e.1 e.2⟩ (fun _ => 1 / 2) =
      ⟨.error ("query returned more than 10000 results", "code -32005"), 1, []⟩ :=
  ⟨by decide,
   withRetry_nonretryable_single_call _ _ _ _ rfl (by decide)⟩

/-- C5 counterexample: an error whose payload indicates Alchemy's
block-range limit (it contains both "block range" and code -32600) but
whose message also mentions "network" is classified RETRYABLE, because
the transient-network check runs before the range-limit check; the claim
as stated says every range-limit-indicating error is classified
non-retryable. -/
theorem isRetryableError_rangeLimit_counterexample :
    strIncludes
      (strLower "code -32600: network error: use a smaller block range")
      "block range" = true ∧
    strIncludes
      (strLower "code -32600: network error: use a smaller block range")
      "-32600" = true ∧
    isRetryableError "network error: use a smaller block range"
      "code -32600: network error: use a smaller block range" = true := by
  decide

/-- C5 (amended): the default classifier returns true whenever the
message contains a retryable indicator (rate limit / 429, the transient
network error codes, or one of the 5xx codes it matches), and returns
false for every error — range-limit rejections included — whose message
contains none of those retryable indicators; when an error matches both
classes the retryable classification wins because those checks run
first. -/
theorem isRetryableError_classification (message errorString : String) :
    (∀ t ∈ retryableTokens,
      strIncludes (strLower message) t = true → isRetryableError message errorString = true) ∧
    ((∀ t ∈ retryableTokens, strIncludes (strLower message) t = false) →
      isRetryableError message errorString = false) := by
  constructor
  · intro t ht hm
    fin_cases ht <;> simp [isRetryableError, hm]
  · intro h
    have h1 := h "rate limit" (by simp [retryableTokens])
    have h2 := h "429" (by simp [retryableTokens])
    have h3 := h "econnreset" (by simp [retryableTokens])
    have h4 := h "etimedout" (by simp [retryableTokens])
    have h5 := h "enotfound" (by simp [retryableTokens])
    have h6 := h "network" (by simp [retryableTokens])
    have h7 := h "500" (by simp [retryableTokens])
    have h8 := h "502" (by simp [retryableTokens])
    have h9 := h "503" (by simp [retryableTokens])
    have h10 := h "504" (by simp [retryableTokens])
    simp [isRetryableError, h1, h2, h3, h4, h5, h6, h7, h8, h9, h10]

/-- Witness for C5 (amended): an HTTP 429 message is retryable; an
Infura result-cap rejection with no retryable indicator in its message
is non-retryable. -/
theorem isRetryableError_classification_witness :
    isRetryableError "HTTP 429 Too Many Requests" "no details" = true ∧
    isRetryableError "query returned more than 10000 results" "code -32005" = false :=
  ⟨(isRetryableError_classification "HTTP 429 Too Many Requests" "no details").1 "429"
      (by simp [retryableTokens]) (by decide),
   (isRetryableError_classification "query returned more than 10000 results"
      "code -32005").2 (by decide)⟩

/-- Writing key `k` into the map keeps the key sequence unchanged when
`k` is present and appends `k` when it is not. -/
theorem mapSet_map_fst (m : List ((String × Nat) × RawLog)) (k : String × Nat) (v : RawLog) :
    (mapSet m k v).map (·.1) =
      if m.any (fun p => decide (p.1 = k)) then m.map (·.1) else m.map (·.1) ++ [k] := by
  unfold mapSet
  by_cases h : m.any (fun p => decide (p.1 = k)) = true
  · rw [if_pos h, if_pos h, List.map_map]
    exact List.map_congr_left fun p _ => by
      by_cases hp : p.1 = k
      · simp [hp]
      · simp [hp]
  · rw [if_neg h, if_neg h]
    simp

/-- Membership in the key sequence after a `Map.set`. -/
theorem mapSet_mem_fst (m : List ((String × Nat) × RawLog)) (k v k') :
    k' ∈ (mapSet m k v).map (·.1) ↔ k' ∈ m.map (·.1) ∨ k' = k := by
  rw [mapSet_map_fst]
  by_cases h : m.any (fun p => decide (p.1 = k)) = true
  · rw [if_pos h]
    constructor
    · exact Or.inl
    · rintro (hk | rfl)
      · exact hk
      · obtain ⟨p, hp, hpk⟩ := List.any_eq_true.1 h
        exact List.mem_map.2 ⟨p, hp, of_decide_eq_true hpk⟩
  · rw [if_neg h]
    simp

/-- `Map.set` preserves distinctness of the key sequence. -/
theorem mapSet_nodup_fst (m : List ((String × Nat) × RawLog)) (k v)
    (hm : (m.map (·.1)).Nodup) : ((mapSet m k v).map (·.1)).Nodup := by
  rw [mapSet_map_fst]
  by_cases h : m.any (fun p => decide (p.1 = k)) = true
  · rw [if_pos h]; exact hm
  · rw [if_neg h]
    rw [List.nodup_append]
    refine ⟨hm, List.nodup_singleton k, ?_⟩
    intro a ha hak
    rw [List.mem_singleton] at hak
    subst hak
    obtain ⟨p, hp, hpk⟩ := List.mem_map.1 ha
    exact h (List.any_eq_true.2 ⟨p, hp, decide_eq_true hpk⟩)

/-- `Map.set` preserves the invariant that every stored value carries
its own key. -/
theorem mapSet_snd_fst (m : List ((String × Nat) × RawLog)) (k v)
    (hm : ∀ p ∈ m, logKey p.2 = p.1) (hv : logKey v = k) :
    ∀ p ∈ mapSet m k v, logKey p.2 = p.1 := by
  unfold mapSet
  by_cases h : m.any (fun p => decide (p.1 = k)) = true
  · rw [if_pos h]
    rintro p hp
    obtain ⟨q, hq, rfl⟩ := List.mem_map.1 hp
    by_cases hq1 : q.1 = k
    · simp [hq1, hv]
    · simp [hq1]
      exact hm q hq
  · rw [if_neg h]
    intro p hp
    rcases List.mem_append.1 hp with hp | hp
    · exact hm p hp
    · rw [List.mem_singleton] at hp
      subst hp
      exact hv

/-- Folding log upserts preserves key distinctness. -/
theorem foldl_mapSet_nodup (ls : List RawLog) (m : List ((String × Nat) × RawLog))
    (hm : (m.map (·.1)).Nodup) :
    ((ls.foldl (fun m log => mapSet m (logKey log) log) m).map (·.1)).Nodup := by
  induction ls generalizing m with
  | nil => exact hm
  | cons l ls ih => exact ih _ (mapSet_nodup_fst _ _ _ hm)

/-- Keys present after folding log upserts: the starting keys plus the
keys of the processed logs. -/
theorem foldl_mapSet_mem (ls : List RawLog) (m : List ((String × Nat) × RawLog)) (k) :
    k ∈ ((ls.foldl (fun m log => mapSet m (logKey log) log) m).map (·.1)) ↔
      k ∈ m.map (·.1) ∨ k ∈ ls.map logKey := by
  induction ls generalizing m with
  | nil => simp
  | cons l ls ih =>
    rw [List.foldl_cons, ih, mapSet_mem_fst]
    simp
    tauto

/-- Every value stored by the fold carries its own key. -/
theorem foldl_mapSet_snd (ls : List RawLog) (m : List ((String × Nat) × RawLog))
    (hm : ∀ p ∈ m, logKey p.2 = p.1) :
    ∀ p ∈ ls.foldl (fun m log => mapSet m (logKey log) log) m, logKey p.2 = p.1 := by
  induction ls generalizing m with
  | nil => exact hm
  | cons l ls ih => exact ih _ (mapSet_snd_fst _ _ _ hm rfl)

/-- In a list whose image under `f` has no duplicates, exactly one
element maps to any value in that image. -/
theorem countP_eq_one_of_nodup_map {α β : Type} [DecidableEq β] (f : α → β) (l : List α)
    (hn : (l.map f).Nodup) (k : β) (hk : k ∈ l.map f) :
    l.countP (fun x => decide (f x = k)) = 1 := by
  induction l with
  | nil => simp at hk
  | cons a l ih =>
    rw [List.map_cons, List.nodup_cons] at hn
    rw [List.map_cons, List.mem_cons] at hk
    rw [List.countP_cons]
    by_cases hak : f a = k
    · have hz : l.countP (fun x => decide (f x = k)) = 0 := by
        rw [List.countP_eq_zero]
        intro x hx hdx
        have hfx : f x = f a := (of_decide_eq_true hdx).trans hak.symm
        exact hn.1 (hfx ▸ List.mem_map_of_mem f hx)
      simp [hz, hak]
    · rcases hk with hk | hk
      · exact absurd hk.symm hak
      · simp [hak, ih hn.2 hk]

/-- C7: the merged result of the sender-side and recipient-side log
queries contains each (transactionHash, logIndex) key at most once, and
every log present in either query result — a self-transfer present in
both included — appears in the merge exactly once. -/
theorem fetchTransferEvents_dedup (logsFrom logsTo : List RawLog) :
    ((fetchTransferEvents logsFrom logsTo).map logKey).Nodup ∧
    ∀ l ∈ logsFrom ++ logsTo,
      (fetchTransferEvents logsFrom logsTo).countP
        (fun x => decide (logKey x = logKey l)) = 1 := by
  have hsnd := foldl_mapSet_snd (logsFrom ++ logsTo) [] (by simp)
  have hkeys : (fetchTransferEvents logsFrom logsTo).map logKey =
      ((logsFrom ++ logsTo).foldl (fun m log => mapSet m (logKey log) log) []).map (·.1) := by
    unfold fetchTransferEvents
    rw [List.map_map]
    exact List.map_congr_left fun p hp => hsnd p hp
  have hnd : ((fetchTransferEvents logsFrom logsTo).map logKey).Nodup := by
    rw [hkeys]
    exact foldl_mapSet_nodup _ _ (by simp)
  refine ⟨hnd, fun l hl => ?_⟩
  apply countP_eq_one_of_nodup_map logKey _ hnd
  rw [hkeys, foldl_mapSet_mem]
  exact Or.inr (List.mem_map_of_mem logKey hl)

/-- Witness for C7: a self-transfer log returned by both directional
queries appears exactly once in the merged result. -/
theorem fetchTransferEvents_dedup_witness :
    (⟨"0xs", 3, 100, ["t", "0xa", "0xa"], 5⟩ : RawLog) ∈
      ([⟨"0xs", 3, 100, ["t", "0xa", "0xa"], 5⟩] ++
       [⟨"0xs", 3, 100, ["t", "0xa", "0xa"], 5⟩] : List RawLog) ∧
    (fetchTransferEvents [⟨"0xs", 3, 100, ["t", "0xa", "0xa"], 5⟩]
        [⟨"0xs", 3, 100, ["t", "0xa", "0xa"], 5⟩]).countP
      (fun x => decide (logKey x = logKey ⟨"0xs", 3, 100, ["t", "0xa", "0xa"], 5⟩)) = 1 :=
  ⟨by decide,
   (fetchTransferEvents_dedup [⟨"0xs", 3, 100, ["t", "0xa", "0xa"], 5⟩]
      [⟨"0xs", 3, 100, ["t", "0xa", "0xa"], 5⟩]).2 _ (by decide)⟩

/-- C8 counterexample: with a persisted event at block 0 (and head
1000000) the store reports `max(block_number) = '0'`, which
`getLastProcessedBlock` treats as "no prior data", so the scan starts at
the 30-day lookback instead of at max persisted block + 1 as the claim
states. -/
theorem getStartingBlock_zero_block_counterexample :
    ([0] : List Nat) ≠ [] ∧
    getStartingBlock [0] 1000000 ≠ (maxPersistedBlock [0] : Int) + 1 ∧
    getStartingBlock [0] 1000000 = 1000000 - 216000 := by
  decide

/-- C8 (amended): if prior persisted events exist with a nonzero maximum
blockNumber, the scan starts at that maximum + 1; otherwise — no rows,
or only rows at block 0, which ClickHouse's `max() = 0` on an empty
table makes indistinguishable from no rows — it starts at the current
head minus the 30-day lookback of 30 × 7200 blocks (12-second blocks). -/
theorem getStartingBlock_resume_or_lookback (blocks : List Nat) (head : Int) :
    (maxPersistedBlock blocks ≠ 0 →
      getStartingBlock blocks head = (maxPersistedBlock blocks : Int) + 1) ∧
    (maxPersistedBlock blocks = 0 →
      getStartingBlock blocks head = head - blocksPerDay * 30) := by
  constructor
  · intro h
    simp [getStartingBlock, getLastProcessedBlock, h]
  · intro h
    simp [getStartingBlock, getLastProcessedBlock, h]

/-- Witness for C8: with persisted blocks {5, 9} the run resumes at
10 = max + 1; with no persisted blocks and head 1000000 it starts at
784000 = head - 30 * 7200. -/
theorem getStartingBlock_resume_or_lookback_witness :
    maxPersistedBlock [5, 9] ≠ 0 ∧
    getStartingBlock [5, 9] 1000000 = (maxPersistedBlock [5, 9] : Int) + 1 ∧
    maxPersistedBlock [] = 0 ∧
    getStartingBlock [] 1000000 = 1000000 - blocksPerDay * 30 :=
  ⟨by decide,
   (getStartingBlock_resume_or_lookback [5, 9] 1000000).1 (by decide),
   by decide,
   (getStartingBlock_resume_or_lookback [] 1000000).2 (by decide)⟩

/-- The `avgIf` condition in the MA7 query is evaluated per frame row as
`r.date >= r.date - 6`, which always holds, so the query computes the
plain average over the `ROWS BETWEEN 6 PRECEDING AND CURRENT ROW`
frame. -/
theorem getMA7_eq_rowWindowMA7 (rows : List StoredGasRow) :
    getMA7EffectiveGasPrice rows = rowWindowMA7 rows := by
  simp only [getMA7EffectiveGasPrice, rowWindowMA7]
  refine List.map_congr_left fun i _ => ?_
  have hf : (windowFrame (dailyAvgRows rows) i).filter (fun r => decide (r.1 - 6 ≤ r.1)) =
      windowFrame (dailyAvgRows rows) i :=
    List.filter_eq_self.mpr fun a _ => decide_eq_true (Nat.sub_le a.1 6)
  rw [hf]

/-- C3 counterexample: for a series with events on day 100 and day 110
(daily mean gas prices 100 and 200), the stored query's value on day 110
is 150 — the mean over the last two ROWS of the per-day series — while a
7-calendar-day trailing window contains only day 110 and would give 200.
The claim as stated (a calendar-day window) does not match the code. -/
theorem getMA7_calendar_counterexample :
    getMA7EffectiveGasPrice [⟨100, 100⟩, ⟨110, 200⟩] = [(100, 100), (110, 150)] ∧
    specCalendarMA7 [⟨100, 100⟩, ⟨110, 200⟩] = [(100, 100), (110, 200)] ∧
    getMA7EffectiveGasPrice [⟨100, 100⟩, ⟨110, 200⟩] ≠
      specCalendarMA7 [⟨100, 100⟩, ⟨110, 200⟩] := by
  have h1 : getMA7EffectiveGasPrice [⟨100, 100⟩, ⟨110, 200⟩] = [(100, 100), (110, 150)] := by
    norm_num [getMA7EffectiveGasPrice, dailyAvgRows, distinctDates, sortAsc, insertAsc,
      windowFrame, qavg, List.range_succ, List.dedup_cons_of_not_mem, List.dedup_nil]
  have h2 : specCalendarMA7 [⟨100, 100⟩, ⟨110, 200⟩] = [(100, 100), (110, 200)] := by
    norm_num [specCalendarMA7, dailyAvgRows, distinctDates, sortAsc, insertAsc,
      qavg, List.dedup_cons_of_not_mem, List.dedup_nil]
  refine ⟨h1, h2, ?_⟩
  rw [h1, h2]
  norm_num

/-- C3 (amended): the stored 7-day moving average on each day equals the
mean of the per-day mean effective gas prices over the current row and
up to 6 preceding rows of the per-day series (days that have events) —
which coincides with the calendar-day window only when the stored days
are consecutive — and with only 3 days of data the value on day 3 is the
mean of the daily means of days 1-3 (no zero padding, no 7-day
requirement). -/
theorem getMA7_trailing_window (rows : List StoredGasRow) :
    getMA7EffectiveGasPrice rows = rowWindowMA7 rows ∧
    ((dailyAvgRows rows).length = 3 →
      (getMA7EffectiveGasPrice rows).getD 2 (0, 0) =
        (((dailyAvgRows rows).getD 2 (0, 0)).1, qavg ((dailyAvgRows rows).map (·.2)))) := by
  refine ⟨getMA7_eq_rowWindowMA7 rows, fun h3 => ?_⟩
  rw [getMA7_eq_rowWindowMA7]
  obtain ⟨a, b, c, habc⟩ := List.length_eq_three.1 h3
  simp only [rowWindowMA7]
  rw [habc]
  rfl

/-- Witness for C3 (amended): three consecutive days with daily mean gas
prices 10, 20 and 60; the value on the third day is their mean 30. -/
theorem getMA7_trailing_window_witness :
    (dailyAvgRows [⟨1, 10⟩, ⟨2, 20⟩, ⟨3, 60⟩]).length = 3 ∧
    (getMA7EffectiveGasPrice [⟨1, 10⟩, ⟨2, 20⟩, ⟨3, 60⟩]).getD 2 (0, 0) =
      (((dailyAvgRows [⟨1, 10⟩, ⟨2, 20⟩, ⟨3, 60⟩]).getD 2 (0, 0)).1,
       qavg ((dailyAvgRows [⟨1, 10⟩, ⟨2, 20⟩, ⟨3, 60⟩]).map (·.2))) :=
  ⟨by decide, (getMA7_trailing_window [⟨1, 10⟩, ⟨2, 20⟩, ⟨3, 60⟩]).2 (by decide)⟩

/-- Every batch range the loop passes to `fetchAndStoreEvents` has upper
bound `min(from + blockBatchSize, networkBlock)`. -/
theorem collectLoop_batches_upper (fetch : Nat → Nat → Nat) (stop : Nat → Bool)
    (te bs nb : Nat) :
    ∀ (fuel i cb : Nat) (p : CollectionProgress),
      ∀ b ∈ (collectLoop fetch stop te bs nb fuel i cb p).batches,
        b.2 = min (b.1 + bs) nb := by
  intro fuel
  induction fuel with
  | zero =>
    intro i cb p b hb
    simp [collectLoop, loopExit] at hb
  | succ fuel ih =>
    intro i cb p b hb
    simp only [collectLoop] at hb
    split at hb
    · split at hb
      · simp at hb
        subst hb
        rfl
      · simp at hb
        rcases hb with rfl | hb
        · rfl
        · exact ih _ _ _ b hb
    · simp [loopExit] at hb

/-- The invoked batches tile the scanned range: the first batch starts
at the cursor and each later batch starts one block after the previous
batch's upper bound. -/
theorem collectLoop_chain (fetch : Nat → Nat → Nat) (stop : Nat → Bool)
    (te bs nb : Nat) :
    ∀ (fuel i cb : Nat) (p : CollectionProgress),
      batchesChainB cb (collectLoop fetch stop te bs nb fuel i cb p).batches = true := by
  intro fuel
  induction fuel with
  | zero =>
    intro i cb p
    simp [collectLoop, loopExit, batchesChainB]
  | succ fuel ih =>
    intro i cb p
    simp only [collectLoop]
    split
    · split
      · simp [batchesChainB]
      · simp [batchesChainB]
        exact ih _ _ _
    · simp [loopExit, batchesChainB]

/-- `blocksProcessed` grows by exactly `upper - from + 1` per invoked
batch. -/
theorem collectLoop_blocks_sum (fetch : Nat → Nat → Nat) (stop : Nat → Bool)
    (te bs nb : Nat) :
    ∀ (fuel i cb : Nat) (p : CollectionProgress),
      (collectLoop fetch stop te bs nb fuel i cb p).progress.blocksProcessed =
        p.blocksProcessed +
          ((collectLoop fetch stop te bs nb fuel i cb p).batches.map
            (fun b => b.2 - b.1 + 1)).sum := by
  intro fuel
  induction fuel with
  | zero =>
    intro i cb p
    simp [collectLoop, loopExit]
  | succ fuel ih =>
    intro i cb p
    simp only [collectLoop]
    split
    · split
      · simp
      · simp only [List.map_cons, List.sum_cons]
        rw [ih]
        simp
        omega
    · simp [loopExit]

/-- `eventsCollected` grows by exactly the fetched event count per
invoked batch: every batch that starts — the one in flight when a stop
arrives included — has its events counted (and hence persisted by
`fetchAndStoreEvents`) before the loop exits. -/
theorem collectLoop_events_sum (fetch : Nat → Nat → Nat) (stop : Nat → Bool)
    (te bs nb : Nat) :
    ∀ (fuel i cb : Nat) (p : CollectionProgress),
      (collectLoop fetch stop te bs nb fuel i cb p).progress.eventsCollected =
        p.eventsCollected +
          ((collectLoop fetch stop te bs nb fuel i cb p).batches.map
            (fun b => fetch b.1 b.2)).sum := by
  intro fuel
  induction fuel with
  | zero =>
    intro i cb p
    simp [collectLoop, loopExit]
  | succ fuel ih =>
    intro i cb p
    simp only [collectLoop]
    split
    · split
      · simp
      · simp only [List.map_cons, List.sum_cons]
        rw [ih]
        simp
        omega
    · simp [loopExit]

/-- Once the (monotone) stop signal is observed at guard check `k`, no
batch with iteration index ≥ k is started: from iteration `i` on, at
most `k - i` further batches run. -/
theorem collectLoop_stop_bound (fetch : Nat → Nat → Nat) (stop : Nat → Bool)
    (te bs nb : Nat)
    (hmono : ∀ i j, i ≤ j → stop i = true → stop j = true) :
    ∀ (fuel i cb : Nat) (p : CollectionProgress) (k : Nat), stop k = true →
      (collectLoop fetch stop te bs nb fuel i cb p).batches.length ≤ k - i := by
  intro fuel
  induction fuel with
  | zero =>
    intro i cb p k hk
    simp [collectLoop, loopExit]
  | succ fuel ih =>
    intro i cb p k hk
    simp only [collectLoop]
    split
    · rename_i hguard
      simp only [Bool.and_eq_true, Bool.not_eq_true', decide_eq_true_eq] at hguard
      have hik : i < k := by
        by_contra hik
        have := hmono k i (by omega) hk
        simp [hguard.2] at this
      split
      · simp
        omega
      · simp only [List.length_cons]
        refine le_trans (Nat.succ_le_succ (ih _ _ _ k hk)) ?_
        omega
    · simp [loopExit]

/-- A run with no stop signal that returns (rather than
continue-as-new) exits exactly when the target is met or the cursor has
reached the head, and then reports completion. `fuel ≥ networkBlock -
cursor` is maintained by the strictly increasing cursor. -/
theorem collectLoop_no_stop_complete (fetch : Nat → Nat → Nat) (te bs nb : Nat) :
    ∀ (fuel i cb : Nat) (p : CollectionProgress), nb ≤ cb + fuel →
      (collectLoop fetch (fun _ => false) te bs nb fuel i cb p).continued = false →
      (collectLoop fetch (fun _ => false) te bs nb fuel i cb p).progress.isComplete = true ∧
      (te ≤ (collectLoop fetch (fun _ => false) te bs nb fuel i cb p).progress.eventsCollected ∨
        nb ≤ (collectLoop fetch (fun _ => false) te bs nb fuel i cb p).cursor) := by
  intro fuel
  induction fuel with
  | zero =>
    intro i cb p hfuel _
    have hcb : nb ≤ cb := by omega
    constructor
    · simp [collectLoop, loopExit, hcb]
    · exact Or.inr (by simpa [collectLoop, loopExit] using hcb)
  | succ fuel ih =>
    intro i cb p hfuel hret
    simp only [collectLoop] at hret ⊢
    split at hret
    · rename_i hguard
      split at hret
      · simp at hret
      · rename_i hcont
        rw [if_pos hguard, if_neg hcont]
        have hcb : cb < nb := by
          have h := hguard
          simp only [Bool.and_eq_true, decide_eq_true_eq] at h
          exact h.1.2
        have hinv : nb ≤ (min (cb + bs) nb + 1) + fuel := by omega
        simpa using ih (i + 1) (min (cb + bs) nb + 1) _ hinv (by simpa using hret)
    · rename_i hguard
      rw [if_neg hguard]
      have hexit : te ≤ p.eventsCollected ∨ nb ≤ cb := by
        by_contra hno
        push_neg at hno
        exact hguard (by simp [hno.1, hno.2])
      constructor
      · rcases hexit with h | h <;> simp [loopExit, h]
      · rcases hexit with h | h
        · exact Or.inl (by simpa [loopExit] using h)
        · exact Or.inr (by simpa [loopExit] using h)

/-- C1 counterexample: with currentBlock 100, batchSize 10 and head 200,
the first batch passed to the fetch step is [100, 110] — its upper bound
is `min(currentBlock + batchSize, head) = 110`, not
`min(currentBlock + batchSize - 1, head) = 109` as the claim states (a
full batch spans batchSize + 1 blocks, not batchSize). -/
theorem collectEventsWorkflow_batchUpper_counterexample :
    (collectEventsWorkflow (fun _ _ => 1) (fun _ => false) 1 10 100 200 0).batches =
      [(100, 110)] ∧
    (110 : Nat) ≠ min (100 + 10 - 1) 200 := by
  decide

/-- C1 (amended): in every iteration the batch upper bound passed to the
fetch step equals `min(currentBlock + batchSize, chainHead)` — one more
than the claim's formula, so a full batch spans batchSize + 1 blocks —
and progress then advances by `batchUpper - currentBlock + 1` blocks
with the cursor set to `batchUpper + 1` (each batch starts right after
the previous one's upper bound). -/
theorem collectEventsWorkflow_batching (fetch : Nat → Nat → Nat) (stop : Nat → Bool)
    (targetEvents blockBatchSize startBlock networkBlock initialCount : Nat) :
    (∀ b ∈ (collectEventsWorkflow fetch stop targetEvents blockBatchSize startBlock
        networkBlock initialCount).batches,
      b.2 = min (b.1 + blockBatchSize) networkBlock) ∧
    batchesChainB startBlock (collectEventsWorkflow fetch stop targetEvents blockBatchSize
      startBlock networkBlock initialCount).batches = true ∧
    (collectEventsWorkflow fetch stop targetEvents blockBatchSize startBlock networkBlock
        initialCount).progress.blocksProcessed =
      ((collectEventsWorkflow fetch stop targetEvents blockBatchSize startBlock networkBlock
        initialCount).batches.map (fun b => b.2 - b.1 + 1)).sum := by
  refine ⟨fun b hb => collectLoop_batches_upper _ _ _ _ _ _ _ _ _ b hb,
    collectLoop_chain _ _ _ _ _ _ _ _ _, ?_⟩
  unfold collectEventsWorkflow
  rw [collectLoop_blocks_sum]
  exact Nat.zero_add _

/-- Witness for C1 (amended), on the run with start 100, batch size 10,
head 200: the invoked batch is (100, 110), its bound is
`min(100 + 10, 200)`, and the batches chain from the start block. -/
theorem collectEventsWorkflow_batching_witness :
    (100, 110) ∈ (collectEventsWorkflow (fun _ _ => 1) (fun _ => false)
      1 10 100 200 0).batches ∧
    (100, 110).2 = min ((100, 110).1 + 10) 200 ∧
    batchesChainB 100 (collectEventsWorkflow (fun _ _ => 1) (fun _ => false)
      1 10 100 200 0).batches = true :=
  ⟨by decide,
   (collectEventsWorkflow_batching (fun _ _ => 1) (fun _ => false) 1 10 100 200 0).1
     (100, 110) (by decide),
   (collectEventsWorkflow_batching (fun _ _ => 1) (fun _ => false) 1 10 100 200 0).2.1⟩

/-- C2: a run of the collection loop that terminates without any stop
signal (and without continue-as-new) returns with isComplete = true, and
indeed the target was met or the cursor reached the chain head. -/
theorem collectEventsWorkflow_completion (fetch : Nat → Nat → Nat)
    (targetEvents blockBatchSize startBlock networkBlock initialCount : Nat)
    (hret : (collectEventsWorkflow fetch (fun _ => false) targetEvents blockBatchSize
      startBlock networkBlock initialCount).continued = false) :
    (collectEventsWorkflow fetch (fun _ => false) targetEvents blockBatchSize startBlock
      networkBlock initialCount).progress.isComplete = true ∧
    (targetEvents ≤ (collectEventsWorkflow fetch (fun _ => false) targetEvents blockBatchSize
        startBlock networkBlock initialCount).progress.eventsCollected ∨
      networkBlock ≤ (collectEventsWorkflow fetch (fun _ => false) targetEvents blockBatchSize
        startBlock networkBlock initialCount).cursor) :=
  collectLoop_no_stop_complete fetch targetEvents blockBatchSize networkBlock
    (networkBlock - startBlock) 0 startBlock _ (by omega) hret

/-- Witness for C2, the spec's scenario: targetEvents 10, the head
(block 50) reached after one batch that collected only 7 events — the
run returns isComplete = true with eventsCollected = 7. -/
theorem collectEventsWorkflow_completion_witness :
    (collectEventsWorkflow (fun _ _ => 7) (fun _ => false) 10 1000 0 50 0).continued = false ∧
    (collectEventsWorkflow (fun _ _ => 7) (fun _ => false)
      10 1000 0 50 0).progress.eventsCollected = 7 ∧
    (collectEventsWorkflow (fun _ _ => 7) (fun _ => false)
      10 1000 0 50 0).progress.isComplete = true ∧
    (10 ≤ (collectEventsWorkflow (fun _ _ => 7) (fun _ => false)
        10 1000 0 50 0).progress.eventsCollected ∨
      50 ≤ (collectEventsWorkflow (fun _ _ => 7) (fun _ => false) 10 1000 0 50 0).cursor) :=
  ⟨by decide, by decide,
   (collectEventsWorkflow_completion (fun _ _ => 7) 10 1000 0 50 0 (by decide)).1,
   (collectEventsWorkflow_completion (fun _ _ => 7) 10 1000 0 50 0 (by decide)).2⟩

/-- C9: with a monotone stop schedule (once received, a stop signal
stays observed), the loop starts no batch at or after the guard check
where the signal is observed — at most k batches run if the signal is
observed at check k — and every batch that did start is fully counted:
the final event total is the initial count plus the full yield of every
invoked batch, so the batch in flight when the signal arrives completes
and its events are persisted before the loop exits. -/
theorem collectEventsWorkflow_stop_boundary (fetch : Nat → Nat → Nat) (stop : Nat → Bool)
    (targetEvents blockBatchSize startBlock networkBlock initialCount : Nat)
    (hmono : ∀ i j, i ≤ j → stop i = true → stop j = true) :
    (∀ k, stop k = true →
      (collectEventsWorkflow fetch stop targetEvents blockBatchSize startBlock networkBlock
        initialCount).batches.length ≤ k) ∧
    (collectEventsWorkflow fetch stop targetEvents blockBatchSize startBlock networkBlock
        initialCount).progress.eventsCollected =
      initialCount + ((collectEventsWorkflow fetch stop targetEvents blockBatchSize startBlock
        networkBlock initialCount).batches.map (fun b => fetch b.1 b.2)).sum :=
  ⟨fun k hk => by
    simpa using collectLoop_stop_bound fetch stop targetEvents blockBatchSize networkBlock
      hmono (networkBlock - startBlock) 0 startBlock _ k hk,
   collectLoop_events_sum fetch stop targetEvents blockBatchSize networkBlock
     (networkBlock - startBlock) 0 startBlock _⟩

/-- Witness for C9: the signal is observed from guard check 1 on; the
run executes exactly the one batch already under way (at most one, per
the theorem) and counts its 2 events. -/
theorem collectEventsWorkflow_stop_boundary_witness :
    (fun i => decide (1 ≤ i)) 1 = true ∧
    (collectEventsWorkflow (fun _ _ => 2) (fun i => decide (1 ≤ i))
      100 10 0 1000 0).batches.length ≤ 1 ∧
    (collectEventsWorkflow (fun _ _ => 2) (fun i => decide (1 ≤ i))
        100 10 0 1000 0).progress.eventsCollected =
      0 + ((collectEventsWorkflow (fun _ _ => 2) (fun i => decide (1 ≤ i))
        100 10 0 1000 0).batches.map (fun b => (fun _ _ => 2 : Nat → Nat → Nat) b.1 b.2)).sum :=
  ⟨by decide,
   (collectEventsWorkflow_stop_boundary (fun _ _ => 2) (fun i => decide (1 ≤ i)) 100 10 0 1000 0
     (fun i j hij hi => by
       simp only [decide_eq_true_eq] at hi ⊢
       omega)).1 1 (by decide),
   (collectEventsWorkflow_stop_boundary (fun _ _ => 2) (fun i => decide (1 ≤ i)) 100 10 0 1000 0
     (fun i j hij hi => by
       simp only [decide_eq_true_eq] at hi ⊢
       omega)).2⟩

/-- `mapM` over `Except` succeeds pointwise when every element maps
successfully. -/
theorem mapM_ok {α β : Type} (f : α → Except String β) (g : α → β) (l : List α)
    (h : ∀ x ∈ l, f x = .ok (g x)) : l.mapM f = .ok (l.map g) := by
  induction l with
  | nil => rfl
  | cons a l ih =>
    rw [List.mapM_cons, h a (List.mem_cons_self a l),
      ih (fun x hx => h x (List.mem_cons_of_mem a hx))]
    rfl

/-- Chunked processing equals plain mapping when every log processes
successfully, for any chunk-count fuel. -/
theorem processChunks_ok (f : RawLog → Except String TransferEventWithGas)
    (g : RawLog → TransferEventWithGas) :
    ∀ (fuel : Nat) (logs : List RawLog), (∀ x ∈ logs, f x = .ok (g x)) →
      processChunks f fuel logs = .ok (logs.map g) := by
  intro fuel
  induction fuel with
  | zero => exact fun logs h => mapM_ok f g logs h
  | succ fuel ih =>
    intro logs h
    match logs with
    | [] => rfl
    | a :: rest =>
      have h1 : (List.take 50 (a :: rest)).mapM f = .ok ((List.take 50 (a :: rest)).map g) :=
        mapM_ok f g _ (fun x hx => h x (List.mem_of_mem_take hx))
      have h2 : processChunks f fuel (List.drop 50 (a :: rest)) =
          .ok ((List.drop 50 (a :: rest)).map g) :=
        ih _ (fun x hx => h x (List.mem_of_mem_drop hx))
      simp only [processChunks, h1, h2]
      show Except.ok (List.map g (List.take 50 (a :: rest)) ++
        List.map g (List.drop 50 (a :: rest))) = _
      rw [← List.map_append, List.take_append_drop]

/-- C10: for a batch of well-shaped transfer logs, `processEventsBatch`
never fails on a log whose block number is absent from the
block-timestamp map (or maps to 0): it returns the full enriched batch,
with each event's `blockTimestamp` taken from the `get(...) || 0`
lookup, which yields 0 for every absent block number. -/
theorem processEventsBatch_missing_timestamp
    (receipts : String → Receipt) (logs : List RawLog) (bts : List (Nat × Nat))
    (hshape : ∀ l ∈ logs, ∃ a b, l.topics = [TRANSFER_TOPIC, a, b]) :
    processEventsBatch receipts logs bts = .ok (logs.map (fun l =>
      enrichWithGasData receipts
        { transactionHash := l.transactionHash
          logIndex := l.logIndex
          blockNumber := l.blockNumber
          blockTimestamp := lookupTimestamp bts l.blockNumber
          fromAddr := l.topics.getD 1 ""
          toAddr := l.topics.getD 2 ""
          value := l.data })) ∧
    ∀ l ∈ logs, bts.find? (fun p => decide (p.1 = l.blockNumber)) = none →
      lookupTimestamp bts l.blockNumber = 0 := by
  constructor
  · unfold processEventsBatch
    apply processChunks_ok
    intro x hx
    obtain ⟨a, b, htop⟩ := hshape x hx
    simp [processOneLog, decodeTransferEvent, htop, Except.map]
  · intro l _ hnone
    simp [lookupTimestamp, hnone]

/-- Witness for C10: a single well-shaped log whose block number 123 is
absent from an empty timestamp map is processed successfully with
blockTimestamp 0. -/
theorem processEventsBatch_missing_timestamp_witness :
    processEventsBatch (fun _ => ⟨21000, 3⟩)
        [⟨"0xh", 0, 123, [TRANSFER_TOPIC, "0xf", "0xt"], 42⟩] [] =
      .ok ([(⟨"0xh", 0, 123, [TRANSFER_TOPIC, "0xf", "0xt"], 42⟩ : RawLog)].map (fun l =>
        enrichWithGasData (fun _ => ⟨21000, 3⟩)
          { transactionHash := l.transactionHash
            logIndex := l.logIndex
            blockNumber := l.blockNumber
            blockTimestamp := lookupTimestamp [] l.blockNumber
            fromAddr := l.topics.getD 1 ""
            toAddr := l.topics.getD 2 ""
            value := l.data })) ∧
    lookupTimestamp [] 123 = 0 :=
  ⟨(processEventsBatch_missing_timestamp (fun _ => ⟨21000, 3⟩)
      [⟨"0xh", 0, 123, [TRANSFER_TOPIC, "0xf", "0xt"], 42⟩] []
      (fun l hl => by
        rw [List.mem_singleton] at hl
        subst hl
        exact ⟨"0xf", "0xt", rfl⟩)).1,
   (processEventsBatch_missing_timestamp (fun _ => ⟨21000, 3⟩)
      [⟨"0xh", 0, 123, [TRANSFER_TOPIC, "0xf", "0xt"], 42⟩] []
      (fun l hl => by
        rw [List.mem_singleton] at hl
        subst hl
        exact ⟨"0xf", "0xt", rfl⟩)).2
     ⟨"0xh", 0, 123, [TRANSFER_TOPIC, "0xf", "0xt"], 42⟩ (by simp) rfl⟩

end Debridge
